import Mathlib

/-!
Verification development for the sbmr fixed-size-block memory resource.

The C++ sources are shallowly embedded over `Nat`:
* machine integers (`std::size_t`, `std::ptrdiff_t`) become `Nat` with the
  64-bit platform bounds made explicit where the code depends on them;
* pointers become byte addresses (`Nat`), with the null pointer at address
  `0`; the total pointer order used by the source (`std::less` etc.) is the
  order on addresses;
* the runtime pool state is a record of the counter, the index stack and the
  block contents; assertions are modelled as a `Bool` flag where a failing
  assertion halts the program, i.e. leaves the state unchanged;
* throwing allocation paths return `Except`, nothrow paths return `Option`.
-/

namespace sbmr

/-- Platform constant: maximum value of the unsigned 64-bit size type. -/
def usize_max : Nat := 2 ^ 64 - 1

/-- Platform constant: maximum value of the signed 64-bit pointer-offset type. -/
def ptrdiff_max : Nat := 2 ^ 63 - 1

/-- Platform constant `__STDCPP_DEFAULT_NEW_ALIGNMENT__` (16 on x86-64). -/
def max_default_align : Nat := 16

/-- Embeds `sbmr::_detail::valid_sizeof`: `size * count` must be nonzero and
representable in both the size type and the offset type.  The source computes
`size > umax / count` with integer division and `size * count > imax`; when
the first test is false the product does not wrap, so the `Nat` product is
faithful, and when it is true the conjunction is false either way. -/
def valid_sizeof (size count : Nat) : Bool :=
  if size = 0 || count = 0 then false
  else !(size > usize_max / count) && !(size * count > ptrdiff_max)

/-- Modelled from the spec: `std::has_single_bit` from the standard header
`<bit>` returns true iff the argument is an integral power of two.  Embedded
with the standard single-bit test `x != 0 && (x & (x - 1)) == 0`, proved below
to agree with the power-of-two characterisation. -/
def has_single_bit (n : Nat) : Bool :=
  n != 0 && (n &&& (n - 1)) == 0

/-- Fuel-indexed body of the size-padding loop of `chunk_options::normalized`
(`while (size < block_size) { size += block_align; }`).  Each iteration
increases `size` by `align ≥ 1`, so `block_size - size` bounds the number of
iterations; the fuel is only a structural termination device. -/
def size_loop_go (align : Nat) : Nat → Nat → Nat → Nat
  | 0, size, _ => size
  | fuel + 1, size, bsize =>
      if size < bsize then size_loop_go align fuel (size + align) bsize else size

/-- The size-padding loop of `chunk_options::normalized`, starting from
`size = align` as in the source.  The `align = 0` guard is for totality only:
the source asserts `has_single_bit(block_align)` (hence `align > 0`) before
the loop runs. -/
def size_loop (align size bsize : Nat) : Nat :=
  if align = 0 then size else size_loop_go align (bsize - size) size bsize

/-- Embeds `size & (~(size - 1u))` from `chunk_options::normalized`, the
lowest-set-bit extraction, with the 64-bit complement made explicit. -/
def land_lowbit (size : Nat) : Nat :=
  size &&& (usize_max - (size - 1))

/-- Embeds `sbmr::chunk_options`: three `std::size_t` fields. -/
structure chunk_options where
  block_size : Nat
  block_align : Nat
  block_count : Nat
deriving DecidableEq, Repr

/-- Embeds `chunk_options::normalized`: pad `block_size` up to a multiple of
`block_align`; then, when `block_align < max_default_align`, raise the
alignment to the low bit of the padded size, capped at `max_default_align`.
`block_count` is passed through. -/
def chunk_options.normalized (o : chunk_options) : chunk_options :=
  let size := size_loop o.block_align o.block_align o.block_size
  let align :=
    if o.block_align < max_default_align then
      min (land_lowbit size) max_default_align
    else o.block_align
  { block_size := size, block_align := align, block_count := o.block_count }

/-- Embeds `chunk_options::valid`. -/
def chunk_options.valid (o : chunk_options) : Bool :=
  valid_sizeof o.block_size o.block_count && has_single_bit o.block_align

/-! ### Arithmetic facts about the options layer -/

theorem size_loop_go_of_not_lt (align : Nat) :
    ∀ fuel size bsize, ¬ size < bsize → size_loop_go align fuel size bsize = size := by
  intro fuel size bsize h
  cases fuel with
  | zero => rfl
  | succ f => simp only [size_loop_go]; rw [if_neg h]

theorem size_loop_go_dvd (align : Nat) :
    ∀ fuel size bsize, align ∣ size → align ∣ size_loop_go align fuel size bsize := by
  intro fuel
  induction fuel with
  | zero => intro size bsize h; exact h
  | succ f ih =>
    intro size bsize h
    simp only [size_loop_go]
    split
    · exact ih (size + align) bsize (Nat.dvd_add h (Nat.dvd_refl align))
    · exact h

theorem size_loop_go_le_self (align : Nat) :
    ∀ fuel size bsize, size ≤ size_loop_go align fuel size bsize := by
  intro fuel
  induction fuel with
  | zero => intro size bsize; exact Nat.le_refl size
  | succ f ih =>
    intro size bsize
    simp only [size_loop_go]
    split
    · exact Nat.le_trans (Nat.le_add_right size align) (ih (size + align) bsize)
    · exact Nat.le_refl size

theorem size_loop_go_ge_bsize (align : Nat) (ha : 0 < align) :
    ∀ fuel size bsize, bsize - size ≤ fuel →
      bsize ≤ size_loop_go align fuel size bsize := by
  intro fuel
  induction fuel with
  | zero => intro size bsize h; simp only [size_loop_go]; omega
  | succ f ih =>
    intro size bsize h
    simp only [size_loop_go]
    split
    · exact ih (size + align) bsize (by omega)
    · omega

theorem size_loop_go_lt (align : Nat) (ha : 0 < align) :
    ∀ fuel size bsize, bsize - size ≤ fuel → size < bsize →
      size_loop_go align fuel size bsize < bsize + align := by
  intro fuel
  induction fuel with
  | zero => intro size bsize h hlt; omega
  | succ f ih =>
    intro size bsize h hlt
    simp only [size_loop_go]
    rw [if_pos hlt]
    by_cases h2 : size + align < bsize
    · exact ih (size + align) bsize (by omega) h2
    · rw [size_loop_go_of_not_lt align f (size + align) bsize h2]
      omega

theorem size_loop_go_eq_of_dvd (align : Nat) (ha : 0 < align) :
    ∀ fuel size bsize, align ∣ size → align ∣ bsize → size ≤ bsize →
      bsize - size ≤ fuel → size_loop_go align fuel size bsize = bsize := by
  intro fuel
  induction fuel with
  | zero => intro size bsize _ _ hle h; simp only [size_loop_go]; omega
  | succ f ih =>
    intro size bsize hd1 hd2 hle h
    simp only [size_loop_go]
    split
    · next hlt =>
      have hsub : align ∣ bsize - size := Nat.dvd_sub' hd2 hd1
      have hstep : align ≤ bsize - size := Nat.le_of_dvd (by omega) hsub
      exact ih (size + align) bsize (Nat.dvd_add hd1 (Nat.dvd_refl align)) hd2
        (by omega) (by omega)
    · next hlt => omega

theorem size_loop_dvd (align size bsize : Nat) (h : align ∣ size) :
    align ∣ size_loop align size bsize := by
  rw [size_loop]
  split
  · exact h
  · exact size_loop_go_dvd align (bsize - size) size bsize h

theorem size_loop_le_self (align size bsize : Nat) :
    size ≤ size_loop align size bsize := by
  rw [size_loop]
  split
  · exact Nat.le_refl size
  · exact size_loop_go_le_self align (bsize - size) size bsize

theorem size_loop_ge_bsize (align size bsize : Nat) (ha : 0 < align) :
    bsize ≤ size_loop align size bsize := by
  rw [size_loop, if_neg (by omega)]
  exact size_loop_go_ge_bsize align ha (bsize - size) size bsize (Nat.le_refl _)

theorem size_loop_lt (align size bsize : Nat) (ha : 0 < align) (h : size < bsize) :
    size_loop align size bsize < bsize + align := by
  rw [size_loop, if_neg (by omega)]
  exact size_loop_go_lt align ha (bsize - size) size bsize (Nat.le_refl _) h

theorem size_loop_eq_of_dvd (align size bsize : Nat) (ha : 0 < align)
    (hd1 : align ∣ size) (hd2 : align ∣ bsize) (hle : size ≤ bsize) :
    size_loop align size bsize = bsize := by
  rw [size_loop, if_neg (by omega)]
  exact size_loop_go_eq_of_dvd align ha (bsize - size) size bsize hd1 hd2 hle
    (Nat.le_refl _)

theorem land_self_eq (m : Nat) : m &&& m = m := by
  apply Nat.eq_of_testBit_eq
  intro i
  rw [Nat.testBit_land, Bool.and_self]

theorem land_even_even (a b : Nat) : (2 * a) &&& (2 * b) = 2 * (a &&& b) := by
  apply Nat.eq_of_testBit_eq
  intro i
  cases i with
  | zero =>
    simp [Nat.testBit_land, Nat.testBit_zero, Nat.mul_mod_right]
  | succ i =>
    have h1 : 2 * a / 2 = a := by omega
    have h2 : 2 * b / 2 = b := by omega
    have h3 : 2 * (a &&& b) / 2 = a &&& b := by omega
    rw [Nat.testBit_land, Nat.testBit_succ, Nat.testBit_succ, Nat.testBit_succ,
      h1, h2, h3, Nat.testBit_land]

theorem land_even_odd (a b : Nat) : (2 * a) &&& (2 * b + 1) = 2 * (a &&& b) := by
  apply Nat.eq_of_testBit_eq
  intro i
  cases i with
  | zero =>
    simp [Nat.testBit_land, Nat.testBit_zero, Nat.mul_mod_right]
  | succ i =>
    have h1 : 2 * a / 2 = a := by omega
    have h2 : (2 * b + 1) / 2 = b := by omega
    have h3 : 2 * (a &&& b) / 2 = a &&& b := by omega
    rw [Nat.testBit_land, Nat.testBit_succ, Nat.testBit_succ, Nat.testBit_succ,
      h1, h2, h3, Nat.testBit_land]

theorem land_odd_even (a b : Nat) : (2 * a + 1) &&& (2 * b) = 2 * (a &&& b) := by
  apply Nat.eq_of_testBit_eq
  intro i
  cases i with
  | zero =>
    simp [Nat.testBit_land, Nat.testBit_zero, Nat.mul_mod_right,
      Nat.mul_add_mod]
  | succ i =>
    have h1 : (2 * a + 1) / 2 = a := by omega
    have h2 : 2 * b / 2 = b := by omega
    have h3 : 2 * (a &&& b) / 2 = a &&& b := by omega
    rw [Nat.testBit_land, Nat.testBit_succ, Nat.testBit_succ, Nat.testBit_succ,
      h1, h2, h3, Nat.testBit_land]

theorem land_pred_eq_zero_iff :
    ∀ n, 0 < n → ((n &&& (n - 1)) = 0 ↔ ∃ k, n = 2 ^ k) := by
  intro n
  induction n using Nat.strong_induction_on with
  | _ n ih =>
    intro hn
    rcases Nat.lt_or_ge n 2 with h2 | h2
    · have hn1 : n = 1 := by omega
      subst hn1
      constructor
      · intro _; exact ⟨0, rfl⟩
      · intro _; decide
    · by_cases hpar : n % 2 = 1
      · -- odd n ≥ 3: n &&& (n - 1) = n - 1 ≠ 0, and n is not a power of two
        have hm : n = 2 * (n / 2) + 1 := by omega
        have hsub : n - 1 = 2 * (n / 2) := by omega
        constructor
        · intro h
          exfalso
          have h5 := land_odd_even (n / 2) (n / 2)
          rw [land_self_eq] at h5
          rw [← hm] at h5
          rw [← hsub] at h5
          omega
        · rintro ⟨k, hk⟩
          exfalso
          cases k with
          | zero => rw [pow_zero] at hk; omega
          | succ k =>
            have hmod : 2 ^ (k + 1) % 2 = 0 := by
              rw [Nat.pow_succ]; exact Nat.mul_mod_left _ _
            omega
      · -- even n ≥ 2: halve and use the induction hypothesis
        have hpar0 : n % 2 = 0 := by omega
        have hm : n = 2 * (n / 2) := by omega
        have hm1 : 0 < n / 2 := by omega
        have hsub : n - 1 = 2 * (n / 2 - 1) + 1 := by omega
        have hland : n &&& (n - 1) = 2 * (n / 2 &&& (n / 2 - 1)) := by
          have h5 := land_even_odd (n / 2) (n / 2 - 1)
          rw [← hm] at h5
          rw [← hsub] at h5
          exact h5
        rw [hland]
        have ihm := ih (n / 2) (by omega) hm1
        constructor
        · intro h
          obtain ⟨k, hk⟩ := ihm.mp (by omega)
          refine ⟨k + 1, ?_⟩
          rw [Nat.pow_succ]
          omega
        · rintro ⟨k, hk⟩
          cases k with
          | zero => rw [pow_zero] at hk; omega
          | succ k =>
            have hk2 : n / 2 = 2 ^ k := by
              rw [Nat.pow_succ] at hk
              omega
            have hz := ihm.mpr ⟨k, hk2⟩
            omega

theorem has_single_bit_iff (n : Nat) :
    has_single_bit n = true ↔ ∃ k, n = 2 ^ k := by
  rw [has_single_bit]
  by_cases h0 : n = 0
  · subst h0
    simp only [bne_self_eq_false, Bool.false_and]
    constructor
    · intro h; simp at h
    · rintro ⟨k, hk⟩
      have hp : 0 < 2 ^ k := pow_pos (by omega) k
      omega
  · have h1 : (n != 0) = true := by simp [h0]
    rw [h1, Bool.true_and, beq_iff_eq]
    exact land_pred_eq_zero_iff n (by omega)

theorem has_single_bit_pos (n : Nat) (h : has_single_bit n = true) : 0 < n := by
  obtain ⟨k, rfl⟩ := (has_single_bit_iff n).mp h
  exact pow_pos (by omega) k

theorem size_loop_of_ge (align size bsize : Nat) (h : bsize ≤ size) :
    size_loop align size bsize = size := by
  rw [size_loop]
  split
  · rfl
  · exact size_loop_go_of_not_lt align (bsize - size) size bsize (by omega)

theorem has_single_bit_two_pow (k : Nat) : has_single_bit (2 ^ k) = true :=
  (has_single_bit_iff (2 ^ k)).mpr ⟨k, rfl⟩

theorem odd_land_two_pow_sub (w n : Nat) (h1 : n % 2 = 1) (h2 : n < 2 ^ w) :
    n &&& (2 ^ w - n) = 1 := by
  have hw : 0 < w := by
    rcases Nat.eq_zero_or_pos w with h0 | h0
    · subst h0; rw [pow_zero] at h2; omega
    · exact h0
  have hn1 : n - 1 < 2 ^ w := by omega
  have hsub : 2 ^ w - n = 2 ^ w - ((n - 1) + 1) := by omega
  apply Nat.eq_of_testBit_eq
  intro i
  rw [Nat.testBit_land, hsub, Nat.testBit_two_pow_sub_succ hn1]
  cases i with
  | zero =>
    have hm : (n - 1) % 2 = 0 := by omega
    rw [Nat.testBit_zero, Nat.testBit_zero, Nat.testBit_zero, h1, hm]
    simp [hw]
  | succ i =>
    have hdiv : n / 2 = (n - 1) / 2 := by omega
    have hone : (1 : Nat) / 2 = 0 := by omega
    rw [Nat.testBit_succ, Nat.testBit_succ, Nat.testBit_succ, hdiv, hone,
      Nat.zero_testBit]
    cases hb : ((n - 1) / 2).testBit i <;> simp [hb]

theorem land_two_pow_sub :
    ∀ n w, 0 < n → n < 2 ^ w → ∃ k, n &&& (2 ^ w - n) = 2 ^ k ∧ 2 ^ k ∣ n := by
  intro n
  induction n using Nat.strong_induction_on with
  | _ n ih =>
    intro w hpos hlt
    by_cases hpar : n % 2 = 1
    · exact ⟨0, by rw [pow_zero]; exact odd_land_two_pow_sub w n hpar hlt,
        Nat.one_dvd n⟩
    · obtain ⟨m, rfl⟩ : ∃ m, n = 2 * m := ⟨n / 2, by omega⟩
      have hm1 : 0 < m := by omega
      have hw : 0 < w := by
        rcases Nat.eq_zero_or_pos w with h0 | h0
        · subst h0; rw [pow_zero] at hlt; omega
        · exact h0
      have hpow : 2 ^ w = 2 * 2 ^ (w - 1) := by
        calc 2 ^ w = 2 ^ (w - 1 + 1) := by congr 1; omega
        _ = 2 ^ (w - 1) * 2 := pow_succ 2 (w - 1)
        _ = 2 * 2 ^ (w - 1) := Nat.mul_comm _ _
      have hmlt : m < 2 ^ (w - 1) := by omega
      have hsub : 2 ^ w - 2 * m = 2 * (2 ^ (w - 1) - m) := by omega
      obtain ⟨k, hk1, hk2⟩ := ih m (by omega) (w - 1) hm1 hmlt
      refine ⟨k + 1, ?_, ?_⟩
      · rw [hsub, land_even_even, hk1, Nat.pow_succ]
        exact Nat.mul_comm 2 (2 ^ k)
      · have hd := mul_dvd_mul_left 2 hk2
        rw [Nat.pow_succ, Nat.mul_comm (2 ^ k) 2]
        exact hd

theorem land_lowbit_spec (n : Nat) (h1 : 0 < n) (h2 : n < 2 ^ 64) :
    ∃ k, land_lowbit n = 2 ^ k ∧ 2 ^ k ∣ n := by
  have he : usize_max - (n - 1) = 2 ^ 64 - n := by
    rw [usize_max]; omega
  rw [land_lowbit, he]
  exact land_two_pow_sub n 64 h1 h2

theorem valid_sizeof_iff (size count : Nat) :
    valid_sizeof size count = true ↔
      size ≠ 0 ∧ count ≠ 0 ∧ size ≤ usize_max / count ∧
        size * count ≤ ptrdiff_max := by
  rw [valid_sizeof]
  by_cases h : size = 0 || count = 0
  · rw [if_pos h]
    constructor
    · intro hf; exact absurd hf (by simp)
    · rintro ⟨a, b, _, _⟩
      exfalso
      simp at h
      omega
  · rw [if_neg h]
    simp at h
    constructor
    · intro hb; simp at hb; omega
    · intro hc; simp; omega

/-- Unfolded form of `chunk_options.normalized`. -/
theorem normalized_def (o : chunk_options) :
    o.normalized =
      { block_size := size_loop o.block_align o.block_align o.block_size
      , block_align :=
          if o.block_align < max_default_align then
            min (land_lowbit (size_loop o.block_align o.block_align o.block_size))
              max_default_align
          else o.block_align
      , block_count := o.block_count } := rfl

/-- Field equations for `chunk_options.normalized`. -/
theorem normalized_fields (o : chunk_options) :
    o.normalized.block_size = size_loop o.block_align o.block_align o.block_size ∧
    o.normalized.block_align =
      (if o.block_align < max_default_align then
        min (land_lowbit (size_loop o.block_align o.block_align o.block_size))
          max_default_align
      else o.block_align) ∧
    o.normalized.block_count = o.block_count :=
  ⟨rfl, rfl, rfl⟩

/-- Structural facts about a normalized valid options value: the count is
unchanged, the alignment is a positive power of two that divides the (padded)
size, and the size is positive. -/
theorem normalized_props (o : chunk_options) (h : o.valid = true) :
    o.normalized.block_count = o.block_count ∧
    o.normalized.block_align ∣ o.normalized.block_size ∧
    has_single_bit o.normalized.block_align = true ∧
    0 < o.normalized.block_align ∧
    o.normalized.block_align ≤ o.normalized.block_size ∧
    0 < o.normalized.block_size := by
  rw [chunk_options.valid, Bool.and_eq_true] at h
  obtain ⟨hvs, hsb⟩ := h
  have hA : 0 < o.block_align := has_single_bit_pos _ hsb
  rw [valid_sizeof_iff] at hvs
  obtain ⟨hB0, hC0, hBle, hBC⟩ := hvs
  have hBimax : o.block_size ≤ ptrdiff_max := by
    have hmul : o.block_size ≤ o.block_size * o.block_count :=
      Nat.le_mul_of_pos_right _ (by omega)
    omega
  obtain ⟨hfS, hfA, hfC⟩ := normalized_fields o
  have hS_dvd : o.block_align ∣ o.normalized.block_size := by
    rw [hfS]; exact size_loop_dvd _ _ _ (Nat.dvd_refl _)
  have hS_geA : o.block_align ≤ o.normalized.block_size := by
    rw [hfS]; exact size_loop_le_self _ _ _
  have hS_geB : o.block_size ≤ o.normalized.block_size := by
    rw [hfS]; exact size_loop_ge_bsize _ _ _ hA
  have hS_pos : 0 < o.normalized.block_size := by omega
  by_cases hcase : o.block_align < max_default_align
  · rw [if_pos hcase] at hfA
    have hS_big : o.normalized.block_size < 2 ^ 64 := by
      by_cases hAB : o.block_align < o.block_size
      · have hlt := size_loop_lt o.block_align o.block_align o.block_size hA hAB
        rw [← hfS] at hlt
        rw [max_default_align] at hcase
        rw [ptrdiff_max] at hBimax
        omega
      · have heq : size_loop o.block_align o.block_align o.block_size
            = o.block_align := size_loop_of_ge _ _ _ (by omega)
        rw [hfS, heq, max_default_align] at *
        omega
    rw [hfS] at hS_big
    obtain ⟨k, hLeq, hLdvd⟩ :=
      land_lowbit_spec (size_loop o.block_align o.block_align o.block_size)
        (hfS ▸ hS_pos) hS_big
    have hL_pos : 0 < land_lowbit (size_loop o.block_align o.block_align o.block_size) := by
      rw [hLeq]; exact pow_pos (by omega) k
    have hL_le : land_lowbit (size_loop o.block_align o.block_align o.block_size)
        ≤ o.normalized.block_size := by
      rw [hLeq, hfS]
      exact Nat.le_of_dvd (hfS ▸ hS_pos) hLdvd
    refine ⟨hfC, ?_, ?_, ?_, ?_, hS_pos⟩
    · rw [hfA, hfS]
      by_cases hk16 : land_lowbit (size_loop o.block_align o.block_align o.block_size)
          ≤ max_default_align
      · rw [Nat.min_eq_left hk16, hLeq]
        exact hLdvd
      · rw [Nat.min_eq_right (by omega)]
        have hk4 : 4 ≤ k := by
          by_contra hk4
          have hle : 2 ^ k ≤ 16 := by
            calc 2 ^ k ≤ 2 ^ 4 := Nat.pow_le_pow_right (by omega) (by omega)
            _ = 16 := by norm_num
          rw [hLeq, max_default_align] at hk16
          omega
        have h16 : (max_default_align : Nat) ∣ 2 ^ k := by
          rw [max_default_align, show (16 : Nat) = 2 ^ 4 by norm_num]
          exact pow_dvd_pow 2 hk4
        exact Nat.dvd_trans (hLeq ▸ h16) hLdvd
    · rw [hfA]
      by_cases hk16 : land_lowbit (size_loop o.block_align o.block_align o.block_size)
          ≤ max_default_align
      · rw [Nat.min_eq_left hk16, hLeq]
        exact has_single_bit_two_pow k
      · rw [Nat.min_eq_right (by omega), max_default_align,
          show (16 : Nat) = 2 ^ 4 by norm_num]
        exact has_single_bit_two_pow 4
    · rw [hfA, max_default_align] at *
      omega
    · rw [hfA]
      have hmin : min (land_lowbit (size_loop o.block_align o.block_align o.block_size))
          max_default_align
          ≤ land_lowbit (size_loop o.block_align o.block_align o.block_size) :=
        Nat.min_le_left _ _
      omega
  · rw [if_neg hcase] at hfA
    rw [hfA]
    exact ⟨hfC, hS_dvd, hsb, hA, hS_geA, hS_pos⟩

theorem normalized_idempotent (o : chunk_options) (h : o.valid = true) :
    o.normalized.normalized = o.normalized := by
  obtain ⟨hfC, hdvd, hsb, hApos, hAle, hSpos⟩ := normalized_props o h
  obtain ⟨hfS, hfA, _⟩ := normalized_fields o
  obtain ⟨hfS2, hfA2, hfC2⟩ := normalized_fields o.normalized
  have hsz : size_loop o.normalized.block_align o.normalized.block_align
      o.normalized.block_size = o.normalized.block_size :=
    size_loop_eq_of_dvd _ _ _ hApos (Nat.dvd_refl _) hdvd hAle
  have hsize2 : o.normalized.normalized.block_size = o.normalized.block_size := by
    rw [hfS2, hsz]
  have halign2 : o.normalized.normalized.block_align = o.normalized.block_align := by
    rw [hfA2, hsz]
    by_cases hc2 : o.normalized.block_align < max_default_align
    · rw [if_pos hc2]
      by_cases hc1 : o.block_align < max_default_align
      · rw [if_pos hc1] at hfA
        rw [hfS, hfA]
      · rw [if_neg hc1] at hfA
        exfalso
        rw [hfA] at hc2
        omega
    · rw [if_neg hc2]
  show (⟨o.normalized.normalized.block_size, o.normalized.normalized.block_align,
    o.normalized.normalized.block_count⟩ : chunk_options) = o.normalized
  rw [hsize2, halign2, hfC2]

theorem normalized_valid_eq (o : chunk_options) (h : o.valid = true) :
    o.normalized.valid = valid_sizeof o.normalized.block_size o.block_count := by
  obtain ⟨hfC, _, hsb, _, _, _⟩ := normalized_props o h
  rw [chunk_options.valid, hfC, hsb, Bool.and_true]

/-- C8: counterexample.  The claim states that for every valid `chunk_options`
value `x`, `normalized x` is itself valid.  This fails: the options
`{block_size := 1, block_align := 2 ^ 62, block_count := 4}` are valid, but
normalization pads the size up to the alignment, giving
`{2 ^ 62, 2 ^ 62, 4}`, and `2 ^ 62 * 4` overflows the size and offset types,
so the normalized options are not valid. -/
theorem normalized_validity_counterexample :
    chunk_options.valid ⟨1, 2 ^ 62, 4⟩ = true ∧
    chunk_options.valid (chunk_options.normalized ⟨1, 2 ^ 62, 4⟩) = false := by
  constructor
  · decide
  · decide

/-- C8 (amended): for every valid `chunk_options` value `x`, normalization is
idempotent, preserves `block_count`, and makes the alignment divide the size;
the normalized value satisfies every validity constraint except possibly the
`size * count` overflow bound, i.e. it is valid exactly when
`valid_sizeof` accepts the padded size with the unchanged count. -/
theorem normalized_idempotent_and_divides (o : chunk_options) (h : o.valid = true) :
    o.normalized.normalized = o.normalized ∧
    o.normalized.block_count = o.block_count ∧
    o.normalized.block_align ∣ o.normalized.block_size ∧
    o.normalized.valid = valid_sizeof o.normalized.block_size o.block_count :=
  ⟨normalized_idempotent o h, (normalized_props o h).1,
    (normalized_props o h).2.1, normalized_valid_eq o h⟩

/-- C8 witness: the amended theorem applied to the concrete valid options
`{3, 4, 5}` from spec scenario S3. -/
theorem normalized_idempotent_and_divides_witness :
    chunk_options.valid ⟨3, 4, 5⟩ = true ∧
    ((⟨3, 4, 5⟩ : chunk_options).normalized.normalized
        = (⟨3, 4, 5⟩ : chunk_options).normalized ∧
      (⟨3, 4, 5⟩ : chunk_options).normalized.block_count
        = (⟨3, 4, 5⟩ : chunk_options).block_count ∧
      (⟨3, 4, 5⟩ : chunk_options).normalized.block_align
        ∣ (⟨3, 4, 5⟩ : chunk_options).normalized.block_size ∧
      (⟨3, 4, 5⟩ : chunk_options).normalized.valid
        = valid_sizeof (⟨3, 4, 5⟩ : chunk_options).normalized.block_size
            (⟨3, 4, 5⟩ : chunk_options).block_count) :=
  ⟨by decide, normalized_idempotent_and_divides ⟨3, 4, 5⟩ (by decide)⟩


/-! ### The runtime pool (`chunk_resource_runtime`, current variant) -/

/-- State of the runtime pool: the availability counter, the index stack and
the block contents.  The counter type and index type are narrow machine
integers in the source; their values never exceed `block_count`, so `Nat` is
faithful. -/
structure chunk_state where
  m_available_blocks : Nat
  m_block_index_stack : List Nat
  m_blocks : List (List Nat)
deriving DecidableEq, Repr

/-- Static data of one pool instance: its (normalized) options, the byte
address of the `m_blocks` array and the byte address of the zero block. -/
structure pool_env where
  opts : chunk_options
  blocks_addr : Nat
  zero_addr : Nat
deriving DecidableEq, Repr

/-- Byte size of `block_type` (a struct holding `unsigned char arr[block_size]`
with `alignas(block_align)`): the size padded up to a multiple of the
alignment.  For normalized options the alignment divides the size, so this
equals `block_size`. -/
def block_sizeof (e : pool_env) : Nat :=
  size_loop e.opts.block_align e.opts.block_align e.opts.block_size

/-- Constructor loop of `chunk_resource_runtime`: each slot of the index stack
receives `--size`, so slot `i` holds `block_count - 1 - i`. -/
def ctor_fill (size slots : Nat) : List Nat :=
  match slots with
  | 0 => []
  | k + 1 => (size - 1) :: ctor_fill (size - 1) k

/-- Embeds the `chunk_resource_runtime` default constructor: all blocks are
available and the index stack holds the indexes in reverse order; the block
byte arrays are value-initialized to zero. -/
def init_state (e : pool_env) : chunk_state :=
  { m_available_blocks := e.opts.block_count
  , m_block_index_stack := ctor_fill e.opts.block_count e.opts.block_count
  , m_blocks :=
      List.replicate e.opts.block_count (List.replicate e.opts.block_size 0) }

/-- Embeds `zero_block_ptr()`: the address of the per-type static zero block. -/
def zero_block_ptr (e : pool_env) : Nat := e.zero_addr

/-- Embeds `chunk_resource_runtime::is_maybe_owned`: false for the null
pointer and the zero block, otherwise a half-open interval test
`lo <= p && p < lo + block_count` in units of `block_type`, under the total
pointer order.  No alignment test. -/
def is_maybe_owned (e : pool_env) (p : Nat) : Bool :=
  if p = 0 || p = zero_block_ptr e then false
  else
    decide (e.blocks_addr ≤ p) &&
    decide (p < e.blocks_addr + e.opts.block_count * block_sizeof e)

/-- Embeds `chunk_resource_runtime::is_owned` (run-time branch): maybe-owned
and the byte offset from the array base is a multiple of `sizeof(block_type)`. -/
def is_owned (e : pool_env) (p : Nat) : Bool :=
  is_maybe_owned e p && ((p - e.blocks_addr) % block_sizeof e == 0)

/-- Embeds the return value of `chunk_resource_runtime::block_index`
(run-time branch): the pointer difference in units of `block_type`. -/
def block_index (e : pool_env) (p : Nat) : Nat :=
  (p - e.blocks_addr) / block_sizeof e

/-- Fuel-indexed body of `std::bit_width` on the unsigned 64-bit type:
the number of halvings needed to reach zero.  `bit_width_go n n` is correct
because a positive `n` needs at most `n` halvings. -/
def bit_width_go : Nat → Nat → Nat
  | 0, _ => 0
  | fuel + 1, n => if n = 0 then 0 else bit_width_go fuel (n / 2) + 1

/-- Models `std::bit_width`: zero for zero, else one plus the floor base-2
logarithm. -/
def bit_width (n : Nat) : Nat := bit_width_go n n

/-- Width in bits of the type chosen by `_detail::least_unsigned_t` for a
requested bit count (`uint_leastN_t` has exactly 8, 16, 32 or 64 bits on the
modelled platform). -/
def least_bits (b : Nat) : Nat :=
  if b ≤ 8 then 8 else if b ≤ 16 then 16 else if b ≤ 32 then 32 else 64

/-- `std::numeric_limits<block_index_type>::max()` for the current runtime
pool (`block_index_type = least_unsigned_t<bit_width(block_count - 1)>`). -/
def block_index_max (e : pool_env) : Nat :=
  2 ^ least_bits (bit_width (e.opts.block_count - 1)) - 1

/-- The same bound for the superseded runtime pool variant
(`_impl/chunk_resource.hpp`), whose index type is
`least_unsigned_t<bit_width(block_count)>`. -/
def old_block_index_max (e : pool_env) : Nat :=
  2 ^ least_bits (bit_width e.opts.block_count) - 1

/-- Conjunction of the three precondition assertions inside the current
`block_index` (part_004, run-time branch): the signed difference is
non-negative, at most `numeric_limits<block_index_type>::max()`, and less
than `block_count`. -/
def block_index_asserts_pass (e : pool_env) (p : Nat) : Bool :=
  decide (e.blocks_addr ≤ p) &&
  decide (block_index e p ≤ block_index_max e) &&
  decide (block_index e p < e.opts.block_count)

/-- Conjunction of the two precondition assertions inside the superseded
`block_index` (`_impl/chunk_resource.hpp` lines 220-223): the second one
tests `diff > numeric_limits<block_index_type>::max()`, with `>` where the
consistent sense is `<=`. -/
def old_block_index_asserts_pass (e : pool_env) (p : Nat) : Bool :=
  decide (e.blocks_addr ≤ p) &&
  decide (block_index e p > old_block_index_max e)

/-- Embeds `std::find` over the index stack: position of the first occurrence
of `x`, if any. -/
def find_pos (x : Nat) : List Nat → Option Nat
  | [] => none
  | y :: l => if y = x then some 0 else (find_pos x l).map (· + 1)

/-- Embeds `chunk_resource_runtime::is_allocated`: search the allocated half
`index_stack[available..block_count)` for the block index of the pointer;
`-1` when not found, otherwise the distance from the base of the stack
(a token for the de-allocator). -/
def is_allocated (e : pool_env) (st : chunk_state) (p : Nat) : Int :=
  match find_pos (block_index e p)
      (st.m_block_index_stack.drop st.m_available_blocks) with
  | none => -1
  | some j => ((st.m_available_blocks + j : Nat) : Int)

/-- Embeds `chunk_resource_runtime::obtain_ptr_unchecked`: decrement the
counter, read the index on top of the free prefix, and return the address of
that block. -/
def obtain_ptr_unchecked (e : pool_env) (st : chunk_state) : Nat × chunk_state :=
  let a := st.m_available_blocks - 1
  ( e.blocks_addr + st.m_block_index_stack.getD a 0 * block_sizeof e
  , { st with m_available_blocks := a } )

/-- Embeds `chunk_resource_runtime::return_block_unchecked`: under the three
precondition assertions, swap `index_stack[token]` with
`index_stack[available]` and increment the counter.  A failing assertion
halts the program, modelled as an unchanged state with flag `false`. -/
def return_block_unchecked (e : pool_env) (st : chunk_state) (index_index : Int) :
    chunk_state × Bool :=
  if index_index < (e.opts.block_count : Int) ∧ 0 ≤ index_index ∧
      (st.m_available_blocks : Int) ≤ index_index then
    let ti := index_index.toNat
    let vi := st.m_block_index_stack.getD ti 0
    let vm := st.m_block_index_stack.getD st.m_available_blocks 0
    ( { st with
        m_block_index_stack :=
          (st.m_block_index_stack.set ti vm).set st.m_available_blocks vi
      , m_available_blocks := st.m_available_blocks + 1 }
    , true )
  else (st, false)

/-- Modelled from the spec: `std::sort` from the standard header
`<algorithm>` reorders the range so that it is sorted with respect to the
comparator; with `std::greater` the unique resulting value sequence is
non-increasing.  Any correct sorting function represents it; we use
insertion sort. -/
def std_sort_greater (l : List Nat) : List Nat :=
  List.insertionSort (fun a b => b ≤ a) l

/-- Embeds `rsort_available_indexes` as called by `chunk_resource::defrag`:
sort the free prefix `index_stack[0..available)` in non-increasing order,
leaving the counter and the allocated suffix alone. -/
def defrag (st : chunk_state) : chunk_state :=
  { st with m_block_index_stack :=
      std_sort_greater (st.m_block_index_stack.take st.m_available_blocks) ++
      st.m_block_index_stack.drop st.m_available_blocks }

/-- Embeds the insertion step of `_detail::optimistic_sort` with
`std::greater`: walking the sorted prefix, elements `a` with `cmp a key`
(that is `key < a`) stay before the key; the key is inserted before the first
element for which the comparison fails. -/
def optimistic_insert (key : Nat) : List Nat → List Nat
  | [] => [key]
  | a :: l => if key < a then a :: optimistic_insert key l else key :: a :: l

/-- Embeds `_detail::optimistic_sort` with `std::greater`: insertion sort,
processing the range left to right and inserting each element into the
already sorted prefix. -/
def optimistic_sort (l : List Nat) : List Nat :=
  l.foldl (fun acc x => optimistic_insert x acc) []

/-- Embeds `chunk_resource::defrag_optimistic`:
`rsort_optimistic_available_indexes` applied to the free prefix. -/
def defrag_optimistic (st : chunk_state) : chunk_state :=
  { st with m_block_index_stack :=
      optimistic_sort (st.m_block_index_stack.take st.m_available_blocks) ++
      st.m_block_index_stack.drop st.m_available_blocks }

/-! ### The resource facade (`chunk_resource`, current variant, run-time path) -/

/-- Error kinds thrown by the allocation paths (`sbmr::bad_alloc` subtypes),
with the numeric offenders they carry. -/
inductive alloc_error where
  | invalid_align (align : Nat)
  | unsupported_align (align max_align : Nat)
  | unsupported_size (size max_size : Nat)
  | out_of_memory
  | array_length (count size : Nat)
deriving DecidableEq, Repr

/-- Embeds `chunk_resource::maybe_owns` on the run-time path: the runtime
pool predicate alone. -/
def maybe_owns (e : pool_env) (p : Nat) : Bool :=
  is_maybe_owned e p

/-- Embeds the throwing `chunk_resource::allocate_bytes(size_type)`: reject
an oversized request, then (for nonzero sizes) an exhausted pool; a zero-byte
request returns the zero block without consuming anything; otherwise pop a
block. -/
def allocate_bytes (e : pool_env) (st : chunk_state) (n : Nat) :
    Except alloc_error Nat × chunk_state :=
  if n > e.opts.block_size then
    (.error (.unsupported_size n e.opts.block_size), st)
  else if n ≠ 0 ∧ st.m_available_blocks = 0 then
    (.error .out_of_memory, st)
  else if n = 0 then (.ok (zero_block_ptr e), st)
  else ((.ok (obtain_ptr_unchecked e st).1), (obtain_ptr_unchecked e st).2)

/-- Embeds the throwing
`chunk_resource::allocate_bytes(size_type, align_type)`: reject an alignment
that is not a power of two, then one above the block alignment, then defer to
the unaligned overload. -/
def allocate_bytes_align (e : pool_env) (st : chunk_state) (n a : Nat) :
    Except alloc_error Nat × chunk_state :=
  if !(has_single_bit a) then (.error (.invalid_align a), st)
  else if a > e.opts.block_align then
    (.error (.unsupported_align a e.opts.block_align), st)
  else allocate_bytes e st n

/-- Embeds the nothrow `chunk_resource::allocate_bytes(size_type, nothrow_t)`:
null (`none`) instead of an error, same conditions. -/
def allocate_bytes_nothrow (e : pool_env) (st : chunk_state) (n : Nat) :
    Option Nat × chunk_state :=
  if n > e.opts.block_size || (n ≠ 0 ∧ st.m_available_blocks = 0 : Bool) then
    (none, st)
  else if n = 0 then (some (zero_block_ptr e), st)
  else (some (obtain_ptr_unchecked e st).1, (obtain_ptr_unchecked e st).2)

/-- Embeds the nothrow
`chunk_resource::allocate_bytes(size_type, align_type, nothrow_t)`. -/
def allocate_bytes_align_nothrow (e : pool_env) (st : chunk_state) (n a : Nat) :
    Option Nat × chunk_state :=
  if !(has_single_bit a) || a > e.opts.block_align then (none, st)
  else allocate_bytes_nothrow e st n

/-- Embeds `chunk_resource::check_no_overflow`. -/
def check_no_overflow (n sz : Nat) : Bool :=
  if n = 0 || sz = 0 then true else valid_sizeof sz n

/-- Embeds the throwing `chunk_resource::allocate_object<T>(size_type)` on the
run-time path, with `sizeof(T)` and `alignof(T)` passed as `szT` and `alT`:
reject an overflowing array size, an unsupported alignment, an oversized
request, then exhaustion; zero counts get the zero block. -/
def allocate_object (e : pool_env) (st : chunk_state) (n szT alT : Nat) :
    Except alloc_error Nat × chunk_state :=
  if !(check_no_overflow n szT) then (.error (.array_length n szT), st)
  else if alT > e.opts.block_align then
    (.error (.unsupported_align alT e.opts.block_align), st)
  else if n * szT > e.opts.block_size then
    (.error (.unsupported_size (n * szT) e.opts.block_size), st)
  else if n ≠ 0 ∧ st.m_available_blocks = 0 then
    (.error .out_of_memory, st)
  else if n = 0 then (.ok (zero_block_ptr e), st)
  else ((.ok (obtain_ptr_unchecked e st).1), (obtain_ptr_unchecked e st).2)

/-- Embeds the throwing
`chunk_resource::allocate_object<T>(size_type, align_type)`. -/
def allocate_object_align (e : pool_env) (st : chunk_state) (n szT alT a : Nat) :
    Except alloc_error Nat × chunk_state :=
  if !(has_single_bit a) then (.error (.invalid_align a), st)
  else if a > e.opts.block_align then
    (.error (.unsupported_align a e.opts.block_align), st)
  else allocate_object e st n szT alT

/-- Embeds the nothrow `chunk_resource::allocate_object<T>(size_type,
nothrow_t)` on the run-time path. -/
def allocate_object_nothrow (e : pool_env) (st : chunk_state) (n szT alT : Nat) :
    Option Nat × chunk_state :=
  if !(check_no_overflow n szT) || alT > e.opts.block_align ||
      n * szT > e.opts.block_size || (n ≠ 0 ∧ st.m_available_blocks = 0 : Bool) then
    (none, st)
  else if n = 0 then (some (zero_block_ptr e), st)
  else (some (obtain_ptr_unchecked e st).1, (obtain_ptr_unchecked e st).2)

/-- Embeds the nothrow
`chunk_resource::allocate_object<T>(size_type, align_type, nothrow_t)`. -/
def allocate_object_align_nothrow (e : pool_env) (st : chunk_state)
    (n szT alT a : Nat) : Option Nat × chunk_state :=
  if !(has_single_bit a) || a > e.opts.block_align then (none, st)
  else allocate_object_nothrow e st n szT alT

/-- Embeds `chunk_resource::deallocate_bytes` (current header): early return
on the null pointer or the zero block; then assert ownership and allocation
(modelled as the `Bool` flag; a failing assertion halts, leaving the state
unchanged); then return the block through the token. -/
def deallocate_bytes (e : pool_env) (st : chunk_state) (p _n : Nat) :
    chunk_state × Bool :=
  if p = 0 || p = zero_block_ptr e then (st, true)
  else if !(is_owned e p) then (st, false)
  else if is_allocated e st p = -1 then (st, false)
  else return_block_unchecked e st (is_allocated e st p)

/-- Embeds `chunk_resource::deallocate_object<T>` on the run-time path; the
source deliberately duplicates the body of `deallocate_bytes`. -/
def deallocate_object (e : pool_env) (st : chunk_state) (p _n : Nat) :
    chunk_state × Bool :=
  if p = 0 || p = zero_block_ptr e then (st, true)
  else if !(is_owned e p) then (st, false)
  else if is_allocated e st p = -1 then (st, false)
  else return_block_unchecked e st (is_allocated e st p)

/-! ### Operation sequences and the stack invariant -/

/-- One public operation on the resource (run-time path). -/
inductive pool_op where
  | alloc_b (n : Nat)
  | alloc_b_align (n a : Nat)
  | alloc_b_nothrow (n : Nat)
  | alloc_b_align_nothrow (n a : Nat)
  | alloc_o (n szT alT : Nat)
  | alloc_o_align (n szT alT a : Nat)
  | alloc_o_nothrow (n szT alT : Nat)
  | alloc_o_align_nothrow (n szT alT a : Nat)
  | dealloc_b (p n : Nat)
  | dealloc_o (p n : Nat)
  | do_defrag
  | do_defrag_optimistic
deriving DecidableEq, Repr

/-- The state transition of one operation. -/
def pool_step (e : pool_env) (st : chunk_state) : pool_op → chunk_state
  | .alloc_b n => (allocate_bytes e st n).2
  | .alloc_b_align n a => (allocate_bytes_align e st n a).2
  | .alloc_b_nothrow n => (allocate_bytes_nothrow e st n).2
  | .alloc_b_align_nothrow n a => (allocate_bytes_align_nothrow e st n a).2
  | .alloc_o n szT alT => (allocate_object e st n szT alT).2
  | .alloc_o_align n szT alT a => (allocate_object_align e st n szT alT a).2
  | .alloc_o_nothrow n szT alT => (allocate_object_nothrow e st n szT alT).2
  | .alloc_o_align_nothrow n szT alT a =>
      (allocate_object_align_nothrow e st n szT alT a).2
  | .dealloc_b p n => (deallocate_bytes e st p n).1
  | .dealloc_o p n => (deallocate_object e st p n).1
  | .do_defrag => defrag st
  | .do_defrag_optimistic => defrag_optimistic st

/-- The state after running a sequence of operations on a fresh pool. -/
def pool_run (e : pool_env) (ops : List pool_op) : chunk_state :=
  ops.foldl (pool_step e) (init_state e)

/-- The index-stack invariant: the stack is a permutation of
`0 .. block_count - 1` and the counter is at most `block_count`. -/
def pool_inv (e : pool_env) (st : chunk_state) : Prop :=
  st.m_block_index_stack.Perm (List.range e.opts.block_count) ∧
  st.m_available_blocks ≤ e.opts.block_count


/-! ### Pointer-level facts -/

/-- For normalized options (alignment divides size) the padded block struct
has exactly `block_size` bytes. -/
theorem block_sizeof_eq (e : pool_env) (hA : 0 < e.opts.block_align)
    (hS : 0 < e.opts.block_size)
    (hdvd : e.opts.block_align ∣ e.opts.block_size) :
    block_sizeof e = e.opts.block_size :=
  size_loop_eq_of_dvd _ _ _ hA (Nat.dvd_refl _) hdvd (Nat.le_of_dvd hS hdvd)

/-- C2: `is_maybe_owned(p)` is true exactly when `p` lies in the half-open
byte interval of the `block_count` blocks, i.e. `blocks <= p` and
`p < blocks + block_count * block_size`, and `p` is neither null nor the
zero-block sentinel; no alignment is required.  The hypotheses say the
options are normalized (positive size, positive alignment dividing the
size), which makes `sizeof(block_type) = block_size`. -/
theorem is_maybe_owned_byte_interval (e : pool_env) (p : Nat)
    (hA : 0 < e.opts.block_align) (hS : 0 < e.opts.block_size)
    (hdvd : e.opts.block_align ∣ e.opts.block_size) :
    is_maybe_owned e p = true ↔
      (p ≠ 0 ∧ p ≠ zero_block_ptr e ∧ e.blocks_addr ≤ p ∧
        p < e.blocks_addr + e.opts.block_count * e.opts.block_size) := by
  have hso : block_sizeof e = e.opts.block_size := block_sizeof_eq e hA hS hdvd
  rw [is_maybe_owned, hso]
  by_cases h0 : p = 0 ∨ p = zero_block_ptr e
  · rw [if_pos (by rcases h0 with h | h <;> simp [h])]
    constructor
    · intro hf; exact absurd hf (by simp)
    · rintro ⟨h1, h2, _, _⟩
      exact absurd h0 (by tauto)
  · rw [if_neg (by simpa using h0)]
    push_neg at h0
    constructor
    · intro hb
      simp only [Bool.and_eq_true, decide_eq_true_eq] at hb
      exact ⟨h0.1, h0.2, hb.1, hb.2⟩
    · rintro ⟨_, _, h3, h4⟩
      simp only [Bool.and_eq_true, decide_eq_true_eq]
      exact ⟨h3, h4⟩

/-- C2 witness: a misaligned interior pointer of a two-block pool of 8-byte
blocks at address 64 is maybe-owned. -/
theorem is_maybe_owned_byte_interval_witness :
    is_maybe_owned ⟨⟨8, 8, 2⟩, 64, 8⟩ 65 = true ↔
      (65 ≠ 0 ∧ 65 ≠ zero_block_ptr ⟨⟨8, 8, 2⟩, 64, 8⟩ ∧ 64 ≤ 65 ∧
        65 < 64 + 2 * 8) :=
  is_maybe_owned_byte_interval ⟨⟨8, 8, 2⟩, 64, 8⟩ 65 (by decide) (by decide)
    (by decide)

/-- C3: `deallocate_bytes` with the null pointer or the zero-block sentinel
returns early: no assertion fires and the whole state (counter, index stack,
block contents) is unchanged. -/
theorem deallocate_bytes_null_or_zero_noop (e : pool_env) (st : chunk_state)
    (p n : Nat) (h : p = 0 ∨ p = zero_block_ptr e) :
    deallocate_bytes e st p n = (st, true) := by
  rw [deallocate_bytes, if_pos (by rcases h with h | h <;> simp [h])]

/-- C3 witness: deallocating null and deallocating the zero block of a fresh
two-block pool are both no-ops. -/
theorem deallocate_bytes_null_or_zero_noop_witness :
    deallocate_bytes ⟨⟨8, 8, 2⟩, 64, 8⟩ (init_state ⟨⟨8, 8, 2⟩, 64, 8⟩) 0 5
      = (init_state ⟨⟨8, 8, 2⟩, 64, 8⟩, true) ∧
    deallocate_bytes ⟨⟨8, 8, 2⟩, 64, 8⟩ (init_state ⟨⟨8, 8, 2⟩, 64, 8⟩) 8 5
      = (init_state ⟨⟨8, 8, 2⟩, 64, 8⟩, true) :=
  ⟨deallocate_bytes_null_or_zero_noop _ _ 0 5 (Or.inl rfl),
   deallocate_bytes_null_or_zero_noop _ _ 8 5 (Or.inr rfl)⟩

/-- C5: a zero-byte request succeeds on every pool state (also with zero
blocks available) through all four byte overloads, returns the shared
sentinel `zero_block_ptr()`, consumes nothing (the state is returned
unchanged), and the sentinel is not maybe-owned. -/
theorem allocate_zero_returns_sentinel (e : pool_env) (st : chunk_state)
    (a : Nat) (h1 : has_single_bit a = true) (h2 : a ≤ e.opts.block_align) :
    allocate_bytes e st 0 = (.ok (zero_block_ptr e), st) ∧
    allocate_bytes_align e st 0 a = (.ok (zero_block_ptr e), st) ∧
    allocate_bytes_nothrow e st 0 = (some (zero_block_ptr e), st) ∧
    allocate_bytes_align_nothrow e st 0 a = (some (zero_block_ptr e), st) ∧
    maybe_owns e (zero_block_ptr e) = false := by
  have hplain : allocate_bytes e st 0 = (.ok (zero_block_ptr e), st) := by
    rw [allocate_bytes, if_neg (by omega), if_neg (by simp), if_pos rfl]
  have hnothrow : allocate_bytes_nothrow e st 0 = (some (zero_block_ptr e), st) := by
    rw [allocate_bytes_nothrow, if_neg (by simp), if_pos rfl]
  refine ⟨hplain, ?_, hnothrow, ?_, ?_⟩
  · rw [allocate_bytes_align, if_neg (by simp [h1]), if_neg (by omega), hplain]
  · rw [allocate_bytes_align_nothrow, if_neg (by simp [h1, Nat.not_lt.mpr h2]),
      hnothrow]
  · rw [maybe_owns, is_maybe_owned, if_pos (by simp)]

/-- C5 witness: zero-byte allocation on an exhausted two-block pool (no
blocks available) with alignment 8. -/
theorem allocate_zero_returns_sentinel_witness :
    allocate_bytes ⟨⟨8, 8, 2⟩, 64, 8⟩ ⟨0, [1, 0], []⟩ 0
      = (.ok 8, ⟨0, [1, 0], []⟩) ∧
    allocate_bytes_align ⟨⟨8, 8, 2⟩, 64, 8⟩ ⟨0, [1, 0], []⟩ 0 8
      = (.ok 8, ⟨0, [1, 0], []⟩) ∧
    allocate_bytes_nothrow ⟨⟨8, 8, 2⟩, 64, 8⟩ ⟨0, [1, 0], []⟩ 0
      = (some 8, ⟨0, [1, 0], []⟩) ∧
    allocate_bytes_align_nothrow ⟨⟨8, 8, 2⟩, 64, 8⟩ ⟨0, [1, 0], []⟩ 0 8
      = (some 8, ⟨0, [1, 0], []⟩) ∧
    maybe_owns ⟨⟨8, 8, 2⟩, 64, 8⟩ 8 = false :=
  allocate_zero_returns_sentinel ⟨⟨8, 8, 2⟩, 64, 8⟩ ⟨0, [1, 0], []⟩ 8
    (by decide) (by decide)

/-- The nothrow byte overload returns null exactly when the throwing byte
overload raises. -/
theorem allocate_bytes_nothrow_none_iff (e : pool_env) (st : chunk_state)
    (n : Nat) :
    (allocate_bytes_nothrow e st n).1 = none ↔
      (allocate_bytes e st n).1.isOk = false := by
  rw [allocate_bytes_nothrow, allocate_bytes]
  by_cases h1 : n > e.opts.block_size
  · simp [h1, Except.isOk, Except.toBool]
  · by_cases h2 : n ≠ 0 ∧ st.m_available_blocks = 0
    · simp [h1, h2, Except.isOk, Except.toBool]
    · by_cases h3 : n = 0
      · simp [h1, h2, h3, Except.isOk, Except.toBool]
      · have h4 : ¬ st.m_available_blocks = 0 := fun hz => h2 ⟨h3, hz⟩
        simp [h1, h2, h3, h4, Except.isOk, Except.toBool]

/-- C4: flattening the aligned throwing overload shows the fixed order of the
failure checks — invalid alignment (regardless of the size), then
unsupported alignment, then unsupported size (carrying the request and the
block size), then exhaustion (only for nonzero sizes) — and the nothrow
overloads return null exactly in the failure cases of the throwing
overloads. -/
theorem allocate_bytes_error_order (e : pool_env) (st : chunk_state)
    (n a : Nat) :
    allocate_bytes_align e st n a =
      (if has_single_bit a = false then ((.error (.invalid_align a)), st)
       else if a > e.opts.block_align then
         ((.error (.unsupported_align a e.opts.block_align)), st)
       else if n > e.opts.block_size then
         ((.error (.unsupported_size n e.opts.block_size)), st)
       else if n ≠ 0 ∧ st.m_available_blocks = 0 then
         ((.error .out_of_memory), st)
       else if n = 0 then ((.ok (zero_block_ptr e)), st)
       else ((.ok (obtain_ptr_unchecked e st).1), (obtain_ptr_unchecked e st).2)) ∧
    ((allocate_bytes_align_nothrow e st n a).1 = none ↔
      (allocate_bytes_align e st n a).1.isOk = false) ∧
    ((allocate_bytes_nothrow e st n).1 = none ↔
      (allocate_bytes e st n).1.isOk = false) := by
  refine ⟨?_, ?_, allocate_bytes_nothrow_none_iff e st n⟩
  · by_cases h1 : has_single_bit a = true
    · rw [allocate_bytes_align,
        if_neg (show ¬((!has_single_bit a) = true) by simp [h1]),
        if_neg (show ¬(has_single_bit a = false) by simp [h1])]
      by_cases h2 : a > e.opts.block_align
      · rw [if_pos h2, if_pos h2]
      · rw [if_neg h2, if_neg h2, allocate_bytes]
    · have h1f : has_single_bit a = false := by
        cases hv : has_single_bit a
        · rfl
        · exact absurd hv h1
      rw [allocate_bytes_align, if_pos (show (!has_single_bit a) = true by simp [h1f]),
        if_pos h1f]
  · rw [allocate_bytes_align_nothrow, allocate_bytes_align]
    by_cases h1 : has_single_bit a = true
    · by_cases h2 : a > e.opts.block_align
      · simp [h1, h2, Except.isOk, Except.toBool]
      · simp [h1, h2, allocate_bytes_nothrow_none_iff e st n]
    · have h1f : has_single_bit a = false := by
        cases hv : has_single_bit a
        · rfl
        · exact absurd hv h1
      simp [h1f, Except.isOk, Except.toBool]

/-- C1: evaluation at a concrete owned pointer.  For the two-block pool of
8-byte blocks at address 64, the pointer 64 is owned (it is the start of
block 0), the current `block_index` returns index 0 and its three
precondition assertions all pass, but the superseded variant
(`_impl/chunk_resource.hpp`) asserts `diff > numeric_limits<...>::max()`
(with `>` where `<=` was intended), which is false for `diff = 0`, so its
assertion fires on this owned pointer. -/
theorem block_index_old_variant_assert_fires :
    is_owned ⟨⟨8, 8, 2⟩, 64, 8⟩ 64 = true ∧
    block_index ⟨⟨8, 8, 2⟩, 64, 8⟩ 64 = 0 ∧
    block_index_asserts_pass ⟨⟨8, 8, 2⟩, 64, 8⟩ 64 = true ∧
    old_block_index_asserts_pass ⟨⟨8, 8, 2⟩, 64, 8⟩ 64 = false := by
  refine ⟨?_, ?_, ?_, ?_⟩ <;> decide

theorem allocate_bytes_state_of_fail (e : pool_env) (st : chunk_state) (n : Nat)
    (h : (allocate_bytes e st n).1.isOk = false) :
    (allocate_bytes e st n).2 = st := by
  rw [allocate_bytes] at h ⊢
  split_ifs at h ⊢ <;> simp_all [Except.isOk, Except.toBool]

theorem allocate_bytes_align_state_of_fail (e : pool_env) (st : chunk_state)
    (n a : Nat) (h : (allocate_bytes_align e st n a).1.isOk = false) :
    (allocate_bytes_align e st n a).2 = st := by
  rw [allocate_bytes_align] at h ⊢
  split_ifs at h ⊢
  · rfl
  · rfl
  · exact allocate_bytes_state_of_fail e st n h

theorem allocate_bytes_nothrow_state_of_fail (e : pool_env) (st : chunk_state)
    (n : Nat) (h : (allocate_bytes_nothrow e st n).1 = none) :
    (allocate_bytes_nothrow e st n).2 = st := by
  rw [allocate_bytes_nothrow] at h ⊢
  split_ifs at h ⊢ <;> simp_all

theorem allocate_bytes_align_nothrow_state_of_fail (e : pool_env)
    (st : chunk_state) (n a : Nat)
    (h : (allocate_bytes_align_nothrow e st n a).1 = none) :
    (allocate_bytes_align_nothrow e st n a).2 = st := by
  rw [allocate_bytes_align_nothrow] at h ⊢
  split_ifs at h ⊢
  · rfl
  · exact allocate_bytes_nothrow_state_of_fail e st n h

theorem allocate_object_state_of_fail (e : pool_env) (st : chunk_state)
    (n szT alT : Nat) (h : (allocate_object e st n szT alT).1.isOk = false) :
    (allocate_object e st n szT alT).2 = st := by
  rw [allocate_object] at h ⊢
  split_ifs at h ⊢ <;> simp_all [Except.isOk, Except.toBool]

theorem allocate_object_align_state_of_fail (e : pool_env) (st : chunk_state)
    (n szT alT a : Nat)
    (h : (allocate_object_align e st n szT alT a).1.isOk = false) :
    (allocate_object_align e st n szT alT a).2 = st := by
  rw [allocate_object_align] at h ⊢
  split_ifs at h ⊢
  · rfl
  · rfl
  · exact allocate_object_state_of_fail e st n szT alT h

theorem allocate_object_nothrow_state_of_fail (e : pool_env) (st : chunk_state)
    (n szT alT : Nat) (h : (allocate_object_nothrow e st n szT alT).1 = none) :
    (allocate_object_nothrow e st n szT alT).2 = st := by
  rw [allocate_object_nothrow] at h ⊢
  split_ifs at h ⊢ <;> simp_all

theorem allocate_object_align_nothrow_state_of_fail (e : pool_env)
    (st : chunk_state) (n szT alT a : Nat)
    (h : (allocate_object_align_nothrow e st n szT alT a).1 = none) :
    (allocate_object_align_nothrow e st n szT alT a).2 = st := by
  rw [allocate_object_align_nothrow] at h ⊢
  split_ifs at h ⊢
  · rfl
  · exact allocate_object_nothrow_state_of_fail e st n szT alT h

/-- C10: whenever an allocation overload fails (a throwing overload raises,
or a nothrow overload returns null), the state of the resource — counter,
index stack and block contents — is exactly as before the call, for all
eight byte/object overloads. -/
theorem allocation_failure_leaves_state_unchanged (e : pool_env)
    (st : chunk_state) (n szT alT a : Nat) :
    ((allocate_bytes e st n).1.isOk = false →
      (allocate_bytes e st n).2 = st) ∧
    ((allocate_bytes_align e st n a).1.isOk = false →
      (allocate_bytes_align e st n a).2 = st) ∧
    ((allocate_bytes_nothrow e st n).1 = none →
      (allocate_bytes_nothrow e st n).2 = st) ∧
    ((allocate_bytes_align_nothrow e st n a).1 = none →
      (allocate_bytes_align_nothrow e st n a).2 = st) ∧
    ((allocate_object e st n szT alT).1.isOk = false →
      (allocate_object e st n szT alT).2 = st) ∧
    ((allocate_object_align e st n szT alT a).1.isOk = false →
      (allocate_object_align e st n szT alT a).2 = st) ∧
    ((allocate_object_nothrow e st n szT alT).1 = none →
      (allocate_object_nothrow e st n szT alT).2 = st) ∧
    ((allocate_object_align_nothrow e st n szT alT a).1 = none →
      (allocate_object_align_nothrow e st n szT alT a).2 = st) :=
  ⟨allocate_bytes_state_of_fail e st n,
   allocate_bytes_align_state_of_fail e st n a,
   allocate_bytes_nothrow_state_of_fail e st n,
   allocate_bytes_align_nothrow_state_of_fail e st n a,
   allocate_object_state_of_fail e st n szT alT,
   allocate_object_align_state_of_fail e st n szT alT a,
   allocate_object_nothrow_state_of_fail e st n szT alT,
   allocate_object_align_nothrow_state_of_fail e st n szT alT a⟩

/-- C10 witness: an oversized request (9 bytes, or 9 objects of size 9) on a
fresh two-block pool of 8-byte blocks fails in all eight overloads and
leaves the fresh state intact. -/
theorem allocation_failure_leaves_state_unchanged_witness :
    (allocate_bytes ⟨⟨8, 8, 2⟩, 64, 8⟩ (init_state ⟨⟨8, 8, 2⟩, 64, 8⟩) 9).2
      = init_state ⟨⟨8, 8, 2⟩, 64, 8⟩ ∧
    (allocate_bytes_align ⟨⟨8, 8, 2⟩, 64, 8⟩ (init_state ⟨⟨8, 8, 2⟩, 64, 8⟩) 9 8).2
      = init_state ⟨⟨8, 8, 2⟩, 64, 8⟩ ∧
    (allocate_bytes_nothrow ⟨⟨8, 8, 2⟩, 64, 8⟩ (init_state ⟨⟨8, 8, 2⟩, 64, 8⟩) 9).2
      = init_state ⟨⟨8, 8, 2⟩, 64, 8⟩ ∧
    (allocate_bytes_align_nothrow ⟨⟨8, 8, 2⟩, 64, 8⟩
      (init_state ⟨⟨8, 8, 2⟩, 64, 8⟩) 9 8).2 = init_state ⟨⟨8, 8, 2⟩, 64, 8⟩ ∧
    (allocate_object ⟨⟨8, 8, 2⟩, 64, 8⟩ (init_state ⟨⟨8, 8, 2⟩, 64, 8⟩) 9 9 8).2
      = init_state ⟨⟨8, 8, 2⟩, 64, 8⟩ ∧
    (allocate_object_align ⟨⟨8, 8, 2⟩, 64, 8⟩
      (init_state ⟨⟨8, 8, 2⟩, 64, 8⟩) 9 9 8 8).2 = init_state ⟨⟨8, 8, 2⟩, 64, 8⟩ ∧
    (allocate_object_nothrow ⟨⟨8, 8, 2⟩, 64, 8⟩
      (init_state ⟨⟨8, 8, 2⟩, 64, 8⟩) 9 9 8).2 = init_state ⟨⟨8, 8, 2⟩, 64, 8⟩ ∧
    (allocate_object_align_nothrow ⟨⟨8, 8, 2⟩, 64, 8⟩
      (init_state ⟨⟨8, 8, 2⟩, 64, 8⟩) 9 9 8 8).2 = init_state ⟨⟨8, 8, 2⟩, 64, 8⟩ :=
  ⟨(allocation_failure_leaves_state_unchanged _ _ 9 9 8 8).1 (by decide),
   (allocation_failure_leaves_state_unchanged _ _ 9 9 8 8).2.1 (by decide),
   (allocation_failure_leaves_state_unchanged _ _ 9 9 8 8).2.2.1 (by decide),
   (allocation_failure_leaves_state_unchanged _ _ 9 9 8 8).2.2.2.1 (by decide),
   (allocation_failure_leaves_state_unchanged _ _ 9 9 8 8).2.2.2.2.1 (by decide),
   (allocation_failure_leaves_state_unchanged _ _ 9 9 8 8).2.2.2.2.2.1 (by decide),
   (allocation_failure_leaves_state_unchanged _ _ 9 9 8 8).2.2.2.2.2.2.1 (by decide),
   (allocation_failure_leaves_state_unchanged _ _ 9 9 8 8).2.2.2.2.2.2.2 (by decide)⟩


/-! ### Defragmentation (claim C9) -/

theorem optimistic_insert_perm (x : Nat) :
    ∀ l : List Nat, (optimistic_insert x l).Perm (x :: l) := by
  intro l
  induction l with
  | nil => exact List.Perm.refl _
  | cons a t ih =>
    rw [optimistic_insert]
    split
    · exact (ih.cons a).trans (List.Perm.swap x a t)
    · exact List.Perm.refl _

theorem optimistic_insert_sorted (x : Nat) :
    ∀ l : List Nat, List.Sorted (fun a b : Nat => b ≤ a) l →
      List.Sorted (fun a b : Nat => b ≤ a) (optimistic_insert x l) := by
  intro l
  induction l with
  | nil => intro _; simp [optimistic_insert]
  | cons a t ih =>
    intro h
    rw [List.sorted_cons] at h
    obtain ⟨ha, ht⟩ := h
    rw [optimistic_insert]
    split
    · next hlt =>
      rw [List.sorted_cons]
      constructor
      · intro b hb
        rcases List.mem_cons.mp (((optimistic_insert_perm x t).mem_iff).mp hb) with hb | hb
        · subst hb; omega
        · exact ha b hb
      · exact ih ht
    · next hge =>
      rw [List.sorted_cons]
      constructor
      · intro b hb
        rcases List.mem_cons.mp hb with hb | hb
        · subst hb; omega
        · exact Nat.le_trans (ha b hb) (by omega)
      · exact List.sorted_cons.mpr ⟨ha, ht⟩

theorem optimistic_sort_go_perm :
    ∀ (l acc : List Nat),
      (l.foldl (fun acc x => optimistic_insert x acc) acc).Perm (acc ++ l) := by
  intro l
  induction l with
  | nil => intro acc; simp
  | cons x t ih =>
    intro acc
    rw [List.foldl_cons]
    refine (ih (optimistic_insert x acc)).trans ?_
    refine (List.Perm.append_right t ((optimistic_insert_perm x acc))).trans ?_
    exact List.perm_middle.symm

theorem optimistic_sort_go_sorted :
    ∀ (l acc : List Nat), List.Sorted (fun a b : Nat => b ≤ a) acc →
      List.Sorted (fun a b : Nat => b ≤ a)
        (l.foldl (fun acc x => optimistic_insert x acc) acc) := by
  intro l
  induction l with
  | nil => intro acc h; exact h
  | cons x t ih =>
    intro acc h
    rw [List.foldl_cons]
    exact ih (optimistic_insert x acc) (optimistic_insert_sorted x acc h)

theorem optimistic_sort_perm (l : List Nat) : (optimistic_sort l).Perm l := by
  rw [optimistic_sort]
  simpa using optimistic_sort_go_perm l []

theorem optimistic_sort_sorted (l : List Nat) :
    List.Sorted (fun a b : Nat => b ≤ a) (optimistic_sort l) :=
  optimistic_sort_go_sorted l [] (by simp)

theorem std_sort_greater_perm (l : List Nat) : (std_sort_greater l).Perm l :=
  List.perm_insertionSort _ l

theorem std_sort_greater_sorted (l : List Nat) :
    List.Sorted (fun a b : Nat => b ≤ a) (std_sort_greater l) := by
  haveI hti : IsTotal Nat (fun a b : Nat => b ≤ a) := ⟨fun a b => Nat.le_total b a⟩
  haveI htr : IsTrans Nat (fun a b : Nat => b ≤ a) :=
    ⟨fun _ _ _ hab hbc => Nat.le_trans hbc hab⟩
  exact List.sorted_insertionSort _ l

/-- The repository insertion sort computes the same list as the library sort:
both results are permutations of the input sorted by a total antisymmetric
order, hence equal. -/
theorem optimistic_sort_eq_std_sort (l : List Nat) :
    optimistic_sort l = std_sort_greater l := by
  haveI han : IsAntisymm Nat (fun a b : Nat => b ≤ a) :=
    ⟨fun _ _ h1 h2 => Nat.le_antisymm h2 h1⟩
  exact List.eq_of_perm_of_sorted
    ((optimistic_sort_perm l).trans (std_sort_greater_perm l).symm)
    (optimistic_sort_sorted l) (std_sort_greater_sorted l)

/-- C9: from any pool state, `defrag_optimistic` produces exactly the same
post-state as `defrag`; the counter is unchanged, the free prefix becomes
the non-increasing reordering of the previous free prefix, the allocated
suffix is unchanged, and the block contents are unchanged. -/
theorem defrag_optimistic_eq_defrag (st : chunk_state) :
    defrag_optimistic st = defrag st ∧
    (defrag st).m_available_blocks = st.m_available_blocks ∧
    (defrag st).m_block_index_stack.take st.m_available_blocks
      = std_sort_greater (st.m_block_index_stack.take st.m_available_blocks) ∧
    List.Sorted (fun a b : Nat => b ≤ a)
      ((defrag st).m_block_index_stack.take st.m_available_blocks) ∧
    (defrag st).m_block_index_stack.drop st.m_available_blocks
      = st.m_block_index_stack.drop st.m_available_blocks ∧
    (defrag st).m_blocks = st.m_blocks := by
  have hlen : (std_sort_greater (st.m_block_index_stack.take st.m_available_blocks)).length
      = (st.m_block_index_stack.take st.m_available_blocks).length :=
    (std_sort_greater_perm _).length_eq
  have htk : (defrag st).m_block_index_stack.take st.m_available_blocks
      = std_sort_greater (st.m_block_index_stack.take st.m_available_blocks) := by
    dsimp only [defrag]
    by_cases hle : st.m_available_blocks ≤ st.m_block_index_stack.length
    · exact List.take_left' (by rw [hlen]; simp [hle])
    · have hdrop : st.m_block_index_stack.drop st.m_available_blocks = [] :=
        List.drop_eq_nil_of_le (by omega)
      rw [hdrop, List.append_nil]
      refine List.take_of_length_le ?_
      rw [hlen, List.length_take]
      omega
  have hdr : (defrag st).m_block_index_stack.drop st.m_available_blocks
      = st.m_block_index_stack.drop st.m_available_blocks := by
    dsimp only [defrag]
    by_cases hle : st.m_available_blocks ≤ st.m_block_index_stack.length
    · exact List.drop_left' (by rw [hlen]; simp [hle])
    · have hdrop : st.m_block_index_stack.drop st.m_available_blocks = [] :=
        List.drop_eq_nil_of_le (by omega)
      rw [hdrop, List.append_nil]
      apply List.drop_eq_nil_of_le
      rw [hlen, List.length_take]
      omega
  refine ⟨?_, rfl, htk, ?_, hdr, rfl⟩
  · rw [defrag_optimistic, defrag, optimistic_sort_eq_std_sort]
  · rw [htk]
    exact std_sort_greater_sorted _


/-! ### The index-stack invariant (claim C6) -/

theorem getD_cons_perm :
    ∀ (t : List Nat) (k : Nat) (x : Nat), k < t.length →
      (t.getD k 0 :: t.set k x).Perm (x :: t) := by
  intro t
  induction t with
  | nil => intro k x hk; simp at hk
  | cons a t ih =>
    intro k x hk
    cases k with
    | zero =>
      simp only [List.getD_cons_zero, List.set_cons_zero]
      exact List.Perm.swap x a t
    | succ k =>
      simp only [List.getD_cons_succ, List.set_cons_succ]
      refine (List.Perm.swap a (t.getD k 0) (t.set k x)).trans ?_
      refine ((ih k x (by simpa using hk)).cons a).trans ?_
      exact List.Perm.swap x a t

theorem set_swap_perm :
    ∀ (l : List Nat) (i j : Nat), i ≤ j → j < l.length →
      ((l.set j (l.getD i 0)).set i (l.getD j 0)).Perm l := by
  intro l
  induction l with
  | nil => intro i j hij hj; simp at hj
  | cons a t ih =>
    intro i j hij hj
    cases i with
    | zero =>
      cases j with
      | zero =>
        simp only [List.getD_cons_zero, List.set_cons_zero]
        exact List.Perm.refl _
      | succ j =>
        simp only [List.getD_cons_zero, List.getD_cons_succ, List.set_cons_succ,
          List.set_cons_zero]
        exact getD_cons_perm t j a (by simpa using hj)
    | succ i =>
      cases j with
      | zero => omega
      | succ j =>
        simp only [List.getD_cons_succ, List.set_cons_succ]
        exact (ih i j (by omega) (by simpa using hj)).cons a

theorem return_block_inv (e : pool_env) (st : chunk_state) (t : Int)
    (h : pool_inv e st) : pool_inv e (return_block_unchecked e st t).1 := by
  rw [return_block_unchecked]
  split
  · next hc =>
    obtain ⟨hlt, hge0, hgea⟩ := hc
    obtain ⟨hperm, hle⟩ := h
    have hlen : st.m_block_index_stack.length = e.opts.block_count := by
      rw [hperm.length_eq, List.length_range]
    have hti : t.toNat < st.m_block_index_stack.length := by omega
    have hia : st.m_available_blocks ≤ t.toNat := by omega
    rw [pool_inv]
    dsimp only
    constructor
    · exact (set_swap_perm st.m_block_index_stack st.m_available_blocks t.toNat
        hia hti).trans hperm
    · omega
  · exact h

theorem pool_inv_obtain (e : pool_env) (st : chunk_state) (h : pool_inv e st) :
    pool_inv e (obtain_ptr_unchecked e st).2 := by
  rw [pool_inv] at h ⊢
  dsimp only [obtain_ptr_unchecked]
  exact ⟨h.1, by omega⟩

theorem pool_inv_allocate_bytes (e : pool_env) (st : chunk_state) (n : Nat)
    (h : pool_inv e st) : pool_inv e (allocate_bytes e st n).2 := by
  rw [allocate_bytes]
  split_ifs <;> first | exact h | exact pool_inv_obtain e st h

theorem pool_inv_allocate_bytes_align (e : pool_env) (st : chunk_state)
    (n a : Nat) (h : pool_inv e st) :
    pool_inv e (allocate_bytes_align e st n a).2 := by
  rw [allocate_bytes_align]
  split_ifs <;> first | exact h | exact pool_inv_allocate_bytes e st n h

theorem pool_inv_allocate_bytes_nothrow (e : pool_env) (st : chunk_state)
    (n : Nat) (h : pool_inv e st) :
    pool_inv e (allocate_bytes_nothrow e st n).2 := by
  rw [allocate_bytes_nothrow]
  split_ifs <;> first | exact h | exact pool_inv_obtain e st h

theorem pool_inv_allocate_bytes_align_nothrow (e : pool_env) (st : chunk_state)
    (n a : Nat) (h : pool_inv e st) :
    pool_inv e (allocate_bytes_align_nothrow e st n a).2 := by
  rw [allocate_bytes_align_nothrow]
  split_ifs <;> first | exact h | exact pool_inv_allocate_bytes_nothrow e st n h

theorem pool_inv_allocate_object (e : pool_env) (st : chunk_state)
    (n szT alT : Nat) (h : pool_inv e st) :
    pool_inv e (allocate_object e st n szT alT).2 := by
  rw [allocate_object]
  split_ifs <;> first | exact h | exact pool_inv_obtain e st h

theorem pool_inv_allocate_object_align (e : pool_env) (st : chunk_state)
    (n szT alT a : Nat) (h : pool_inv e st) :
    pool_inv e (allocate_object_align e st n szT alT a).2 := by
  rw [allocate_object_align]
  split_ifs <;> first | exact h | exact pool_inv_allocate_object e st n szT alT h

theorem pool_inv_allocate_object_nothrow (e : pool_env) (st : chunk_state)
    (n szT alT : Nat) (h : pool_inv e st) :
    pool_inv e (allocate_object_nothrow e st n szT alT).2 := by
  rw [allocate_object_nothrow]
  split_ifs <;> first | exact h | exact pool_inv_obtain e st h

theorem pool_inv_allocate_object_align_nothrow (e : pool_env) (st : chunk_state)
    (n szT alT a : Nat) (h : pool_inv e st) :
    pool_inv e (allocate_object_align_nothrow e st n szT alT a).2 := by
  rw [allocate_object_align_nothrow]
  split_ifs <;>
    first
      | exact h
      | exact pool_inv_allocate_object_nothrow e st n szT alT h

theorem pool_inv_deallocate_bytes (e : pool_env) (st : chunk_state) (p n : Nat)
    (h : pool_inv e st) : pool_inv e (deallocate_bytes e st p n).1 := by
  rw [deallocate_bytes]
  split_ifs <;> first | exact h | exact return_block_inv e st _ h

theorem pool_inv_deallocate_object (e : pool_env) (st : chunk_state) (p n : Nat)
    (h : pool_inv e st) : pool_inv e (deallocate_object e st p n).1 := by
  rw [deallocate_object]
  split_ifs <;> first | exact h | exact return_block_inv e st _ h

theorem pool_inv_defrag (e : pool_env) (st : chunk_state) (h : pool_inv e st) :
    pool_inv e (defrag st) := by
  rw [pool_inv] at h ⊢
  dsimp only [defrag]
  refine ⟨?_, h.2⟩
  refine List.Perm.trans ?_ h.1
  have h1 := List.Perm.append_right
    (st.m_block_index_stack.drop st.m_available_blocks)
    (std_sort_greater_perm (st.m_block_index_stack.take st.m_available_blocks))
  rw [List.take_append_drop] at h1
  exact h1

theorem pool_inv_defrag_optimistic (e : pool_env) (st : chunk_state)
    (h : pool_inv e st) : pool_inv e (defrag_optimistic st) := by
  have heq : defrag_optimistic st = defrag st := by
    rw [defrag_optimistic, defrag, optimistic_sort_eq_std_sort]
  rw [heq]
  exact pool_inv_defrag e st h

theorem pool_step_inv (e : pool_env) (st : chunk_state) (op : pool_op)
    (h : pool_inv e st) : pool_inv e (pool_step e st op) := by
  cases op with
  | alloc_b n => exact pool_inv_allocate_bytes e st n h
  | alloc_b_align n a => exact pool_inv_allocate_bytes_align e st n a h
  | alloc_b_nothrow n => exact pool_inv_allocate_bytes_nothrow e st n h
  | alloc_b_align_nothrow n a =>
      exact pool_inv_allocate_bytes_align_nothrow e st n a h
  | alloc_o n szT alT => exact pool_inv_allocate_object e st n szT alT h
  | alloc_o_align n szT alT a =>
      exact pool_inv_allocate_object_align e st n szT alT a h
  | alloc_o_nothrow n szT alT =>
      exact pool_inv_allocate_object_nothrow e st n szT alT h
  | alloc_o_align_nothrow n szT alT a =>
      exact pool_inv_allocate_object_align_nothrow e st n szT alT a h
  | dealloc_b p n => exact pool_inv_deallocate_bytes e st p n h
  | dealloc_o p n => exact pool_inv_deallocate_object e st p n h
  | do_defrag => exact pool_inv_defrag e st h
  | do_defrag_optimistic => exact pool_inv_defrag_optimistic e st h

theorem ctor_fill_eq_reverse :
    ∀ n : Nat, ctor_fill n n = (List.range n).reverse := by
  intro n
  induction n with
  | zero => rfl
  | succ k ih =>
    rw [ctor_fill]
    simp only [Nat.add_sub_cancel]
    rw [ih, List.range_succ]
    simp

theorem pool_inv_init (e : pool_env) : pool_inv e (init_state e) := by
  rw [pool_inv]
  dsimp only [init_state]
  constructor
  · rw [ctor_fill_eq_reverse]
    exact List.reverse_perm _
  · exact Nat.le_refl _

theorem init_stack_getD (e : pool_env) (i : Nat) (h : i < e.opts.block_count) :
    (init_state e).m_block_index_stack.getD i 0
      = e.opts.block_count - 1 - i := by
  dsimp only [init_state]
  rw [ctor_fill_eq_reverse]
  have hlen : (List.range e.opts.block_count).reverse.length
      = e.opts.block_count := by simp
  rw [List.getD_eq_getElem _ _ (by rw [hlen]; omega)]
  rw [List.getElem_reverse]
  simp

/-- C6: the fresh pool has every block available and its index stack holds
`block_count - 1 - i` at slot `i` (the indexes in reverse); and after any
sequence of public operations (all allocate overloads, both deallocates,
both defrag entry points), the index stack is still a permutation of
`0 .. block_count - 1` with the counter at most `block_count`. -/
theorem init_state_and_stack_invariant (e : pool_env) (ops : List pool_op) :
    (init_state e).m_available_blocks = e.opts.block_count ∧
    (∀ i, i < e.opts.block_count →
      (init_state e).m_block_index_stack.getD i 0
        = e.opts.block_count - 1 - i) ∧
    pool_inv e (pool_run e ops) := by
  refine ⟨rfl, fun i hi => init_stack_getD e i hi, ?_⟩
  rw [pool_run]
  suffices hgen : ∀ (l : List pool_op) (st : chunk_state), pool_inv e st →
      pool_inv e (l.foldl (pool_step e) st) by
    exact hgen ops (init_state e) (pool_inv_init e)
  intro l
  induction l with
  | nil => intro st h; exact h
  | cons op l ih =>
    intro st h
    rw [List.foldl_cons]
    exact ih (pool_step e st op) (pool_step_inv e st op h)

/-- C6 witness: the fresh two-block pool, and the invariant after a concrete
mixed sequence (two allocations, one deallocation, an optimistic defrag). -/
theorem init_state_and_stack_invariant_witness :
    (init_state ⟨⟨8, 8, 2⟩, 64, 8⟩).m_available_blocks = 2 ∧
    (init_state ⟨⟨8, 8, 2⟩, 64, 8⟩).m_block_index_stack.getD 0 0 = 1 ∧
    pool_inv ⟨⟨8, 8, 2⟩, 64, 8⟩
      (pool_run ⟨⟨8, 8, 2⟩, 64, 8⟩
        [.alloc_b 4, .alloc_b 8, .dealloc_b 64 4, .do_defrag_optimistic]) :=
  ⟨(init_state_and_stack_invariant ⟨⟨8, 8, 2⟩, 64, 8⟩ []).1,
   (init_state_and_stack_invariant ⟨⟨8, 8, 2⟩, 64, 8⟩ []).2.1 0 (by decide),
   (init_state_and_stack_invariant ⟨⟨8, 8, 2⟩, 64, 8⟩
     [.alloc_b 4, .alloc_b 8, .dealloc_b 64 4, .do_defrag_optimistic]).2.2⟩


/-! ### LIFO round trip (claim C7) -/

theorem find_pos_some :
    ∀ (l : List Nat) (x j : Nat), find_pos x l = some j →
      j < l.length ∧ l.getD j 0 = x := by
  intro l
  induction l with
  | nil => intro x j h; simp [find_pos] at h
  | cons y t ih =>
    intro x j h
    rw [find_pos] at h
    split at h
    · next heq =>
      have hj : j = 0 := by injection h with h2; omega
      subst hj
      exact ⟨by simp, by simp [heq]⟩
    · next hne =>
      cases hft : find_pos x t with
      | none => rw [hft] at h; simp at h
      | some k =>
        rw [hft] at h
        simp at h
        obtain ⟨h1, h2⟩ := ih x k hft
        subst h
        exact ⟨by simpa using h1, by simpa using h2⟩

theorem getD_drop_eq (l : List Nat) (i j : Nat) (h : j < (l.drop i).length) :
    (l.drop i).getD j 0 = l.getD (i + j) 0 := by
  have hlen : i + j < l.length := by
    rw [List.length_drop] at h
    omega
  rw [List.getD_eq_getElem _ _ h, List.getD_eq_getElem _ _ hlen]
  exact List.getElem_drop l

theorem getD_set_self (l : List Nat) (i v : Nat) (h : i < l.length) :
    (l.set i v).getD i 0 = v := by
  rw [List.getD_eq_getElem _ _ (by simpa using h)]
  exact List.getElem_set_self _

/-- C7: on any pool state satisfying the stack invariant, deallocating a
currently allocated owned pointer `p` and then immediately allocating any
supported nonzero size `m` succeeds without any assertion firing and returns
`p` again: the swap-based free puts the freed index at
`index_stack[available]`, which is exactly the slot the next allocation
pops.  The option hypotheses say the options are normalized. -/
theorem deallocate_then_allocate_returns_same (e : pool_env) (st : chunk_state)
    (p n m : Nat)
    (hA : 0 < e.opts.block_align) (hS : 0 < e.opts.block_size)
    (hdvd : e.opts.block_align ∣ e.opts.block_size)
    (hinv : pool_inv e st)
    (howned : is_owned e p = true)
    (halloc : is_allocated e st p ≠ -1)
    (hm0 : 0 < m) (hmS : m ≤ e.opts.block_size) :
    (deallocate_bytes e st p n).2 = true ∧
    (allocate_bytes e (deallocate_bytes e st p n).1 m).1 = .ok p := by
  have hso : block_sizeof e = e.opts.block_size := block_sizeof_eq e hA hS hdvd
  have how := howned
  rw [is_owned, Bool.and_eq_true] at how
  obtain ⟨hmaybe, hmodb⟩ := how
  have hmod : (p - e.blocks_addr) % e.opts.block_size = 0 := by
    rw [hso] at hmodb
    simpa using hmodb
  have hmb := hmaybe
  rw [is_maybe_owned] at hmb
  by_cases h0 : p = 0 ∨ p = zero_block_ptr e
  · rw [if_pos (by rcases h0 with h | h <;> simp [h])] at hmb
    exact absurd hmb (by simp)
  rw [if_neg (by simpa using h0)] at hmb
  push_neg at h0
  obtain ⟨hp0, hpz⟩ := h0
  simp only [Bool.and_eq_true, decide_eq_true_eq] at hmb
  obtain ⟨hlo, hhi⟩ := hmb
  rw [hso] at hhi
  have hdvd2 : e.opts.block_size ∣ (p - e.blocks_addr) :=
    Nat.dvd_of_mod_eq_zero hmod
  have hpi : p = e.blocks_addr + block_index e p * e.opts.block_size := by
    rw [block_index, hso]
    have hc := Nat.div_mul_cancel hdvd2
    omega
  have hiN : block_index e p < e.opts.block_count := by
    rw [block_index, hso]
    rw [Nat.div_lt_iff_lt_mul hS]
    omega
  obtain ⟨hperm, hle⟩ := hinv
  have hlen : st.m_block_index_stack.length = e.opts.block_count := by
    rw [hperm.length_eq, List.length_range]
  cases hft : find_pos (block_index e p)
      (st.m_block_index_stack.drop st.m_available_blocks) with
  | none =>
    exfalso
    apply halloc
    simp only [is_allocated]
    rw [hft]
  | some j =>
    obtain ⟨hjlen, hjval⟩ := find_pos_some _ _ _ hft
    rw [List.length_drop] at hjlen
    have hjval2 : st.m_block_index_stack.getD (st.m_available_blocks + j) 0
        = block_index e p := by
      rw [← getD_drop_eq st.m_block_index_stack st.m_available_blocks j
        (by rw [List.length_drop]; omega)]
      exact hjval
    have htok : is_allocated e st p
        = ((st.m_available_blocks + j : Nat) : Int) := by
      simp only [is_allocated]
      rw [hft]
    have htlt : st.m_available_blocks + j < e.opts.block_count := by omega
    have hdeal : deallocate_bytes e st p n =
        ( { m_available_blocks := st.m_available_blocks + 1
          , m_block_index_stack :=
              (st.m_block_index_stack.set (st.m_available_blocks + j)
                (st.m_block_index_stack.getD st.m_available_blocks 0)).set
                st.m_available_blocks
                (st.m_block_index_stack.getD (st.m_available_blocks + j) 0)
          , m_blocks := st.m_blocks }
        , true ) := by
      rw [deallocate_bytes, if_neg (by simp [hp0, hpz]),
        if_neg (by simp [howned]), if_neg (by rw [htok]; omega), htok,
        return_block_unchecked, if_pos (by refine ⟨?_, ?_, ?_⟩ <;> omega)]
      simp only [Int.toNat_natCast]
    rw [hdeal]
    refine ⟨rfl, ?_⟩
    rw [allocate_bytes]
    rw [if_neg (by omega)]
    rw [if_neg (by rintro ⟨-, habs⟩; simp at habs)]
    rw [if_neg (by omega)]
    dsimp only [obtain_ptr_unchecked]
    rw [Nat.add_sub_cancel]
    have hgets : ((st.m_block_index_stack.set (st.m_available_blocks + j)
        (st.m_block_index_stack.getD st.m_available_blocks 0)).set
        st.m_available_blocks
        (st.m_block_index_stack.getD (st.m_available_blocks + j) 0)).getD
        st.m_available_blocks 0
        = st.m_block_index_stack.getD (st.m_available_blocks + j) 0 := by
      apply getD_set_self
      rw [List.length_set, hlen]
      omega
    rw [hgets, hjval2, hso, ← hpi]

/-- C7 witness: the two-block pool with block 0 allocated (state counter 1,
stack `[1, 0]`); deallocating the block at address 64 and allocating 4 bytes
returns address 64 again. -/
theorem deallocate_then_allocate_returns_same_witness :
    (deallocate_bytes ⟨⟨8, 8, 2⟩, 64, 8⟩ ⟨1, [1, 0], []⟩ 64 4).2 = true ∧
    (allocate_bytes ⟨⟨8, 8, 2⟩, 64, 8⟩
      (deallocate_bytes ⟨⟨8, 8, 2⟩, 64, 8⟩ ⟨1, [1, 0], []⟩ 64 4).1 4).1
      = .ok 64 :=
  deallocate_then_allocate_returns_same ⟨⟨8, 8, 2⟩, 64, 8⟩ ⟨1, [1, 0], []⟩
    64 4 4 (by decide) (by decide) (by decide) ⟨by decide, by decide⟩
    (by decide) (by decide) (by decide) (by decide)


end sbmr
